import Mathlib

/-!
Verification of the s3path repository's core: the pattern-matching /
hierarchical listing engine (glob over a flat key namespace) and the
path-identity and configuration resolution model.

Strings are embedded as `List Char`.  Python functions from
`s3path/current_version.py` and `s3path/accessor.py` are translated into
executable Lean definitions; the remote object store (boto3
`list_objects_v2`) is the external collaborator and is modelled as a pure
function over an abstract list of keys held by a bucket.
-/

namespace S3PathSpec

/-- Coercion helper: the character list underlying a Lean string literal. -/
def s (x : String) : List Char := x.data

/-- POSIX path separator used by the s3path flavour (`posixpath.sep`). -/
def sepC : Char := '/'

/-- The `'..'` path component. -/
def dd : List Char := s ".."

/-- The `'.'` path component. -/
def dot : List Char := s "."

/-- The root-marker component `'/'` (pathlib stores the root as `parts[0]`). -/
def sepPart : List Char := s "/"

/-- Python `str.count(sep)`: number of separator characters in a string. -/
def countSep (l : List Char) : Nat := l.count sepC

/-- Split a string at every separator character; a string with `n`
separators yields `n + 1` chunks (Python `str.split(sep)` without maxsplit). -/
def splitOnSep : List Char → List (List Char)
  | [] => [[]]
  | c :: rest =>
    match splitOnSep rest with
    | [] => [[]]
    | h :: t => if c = sepC then [] :: h :: t else (c :: h) :: t

/-- Python `a.startswith(b)` for strings. -/
def hasPfx (pfx l : List Char) : Bool := pfx.isPrefixOf l

/-- Python `needle in hay` (substring containment) for strings. -/
def isSubstr (needle hay : List Char) : Bool := decide (needle <:+: hay)

/-- Python `sep.join(parts)` for a list of strings. -/
def joinSep (parts : List (List Char)) : List Char :=
  match parts with
  | [] => []
  | [p] => p
  | p :: rest => p ++ sepC :: joinSep rest

/-- Python `str.replace(old, new)` (all non-overlapping occurrences, scanned
left to right).  `fuel` bounds recursion by the string length. -/
def replaceAllAux (old new : List Char) (l : List Char) : Nat → List Char
  | 0 => l
  | fuel + 1 =>
    match l with
    | [] => []
    | c :: rest =>
      if old ≠ [] ∧ hasPfx old l then
        new ++ replaceAllAux old new (l.drop old.length) fuel
      else
        c :: replaceAllAux old new rest fuel

/-- Python `str.replace(old, new)` for a nonempty `old`. -/
def replaceAll (old new l : List Char) : List Char :=
  replaceAllAux old new l l.length

/-- The root returned by `posixpath.splitroot`: `'//'` for exactly two
leading slashes, `'/'` for one or for three and more, none when relative. -/
def rootOf (l : List Char) : Option (List Char) :=
  match l with
  | '/' :: '/' :: rest => if rest.head? = some '/' then some (s "/") else some (s "//")
  | '/' :: _ => some (s "/")
  | _ => none

/-- Parsed tail components of `PurePath._parse_path` on the posix flavour:
split on the separator and drop empty and `'.'` components (`'..'` is kept;
pathlib does not resolve it). -/
def parsePathParts (l : List Char) : List (List Char) :=
  (splitOnSep l).filter (fun p => decide (p ≠ [] ∧ p ≠ dot))

/-- The `parts` tuple of a freshly parsed `PurePosixPath`: the root marker
(when absolute) followed by the parsed tail components. -/
def pyPartsRaw (l : List Char) : List (List Char) :=
  match rootOf l with
  | some r => r :: parsePathParts l
  | none => parsePathParts l

/-- A parsed path value, represented by its pathlib `parts` list (root
marker first when absolute). -/
def PyPath : Type := List (List Char)

instance : DecidableEq PyPath := by
  unfold PyPath
  infer_instance

/-- Python `PurePath.is_absolute()`: the parse produced a root. -/
def pyIsAbs (p : PyPath) : Bool :=
  match p.head? with
  | some r => r = sepPart ∨ r = s "//"
  | none => false

/-- Python `str(path)` for a parts list: the root marker (if any) followed
by the remaining components joined by the separator; the empty path prints
as `'.'`. -/
def strOf (p : PyPath) : List Char :=
  match p with
  | [] => dot
  | r :: rest =>
    if r = sepPart ∨ r = s "//" then r ++ joinSep rest
    else joinSep (r :: rest)

/-- One round of the `'..'` elimination loop body in `PureS3Path.__init__`:
`index = new_parts.index('..'); new_parts.pop(index - 1);
new_parts.remove('..')`.  Python's `pop(-1)` (when the first `'..'` sits at
index 0) removes the LAST element; `index()` and `remove()` on a missing
element raise `ValueError`, modelled as `none`. -/
def elimStep (l : List (List Char)) : Option (List (List Char)) :=
  match l.indexOf? dd with
  | none => none
  | some 0 =>
    let l1 := l.dropLast
    if dd ∈ l1 then some (l1.erase dd) else none
  | some (i + 1) => some ((l.eraseIdx i).erase dd)

/-- The `'..'` elimination loop of `PureS3Path.__init__`: iterate over a
snapshot of `parts[1:]`, and for every `'..'` element of the snapshot run
one `elimStep` on the current list. -/
def elimDotDot (parts : List (List Char)) : Option (List (List Char)) :=
  (parts.drop 1).foldl
    (fun st part => st.bind (fun l => if part = dd then elimStep l else some l))
    (some parts)

/-- Construction of a `PureS3Path` from a string: pathlib parsing followed
by the `'..'` elimination of `PureS3Path.__init__` (`none` models the
`ValueError` the loop can raise). -/
def pyNormalize (l : List Char) : Option PyPath :=
  elimDotDot (pyPartsRaw l)

/-! ### The compiled match predicate (`_Selector._compile_pattern_parts`)

The Python code builds a regular-expression string and matches it with
`re.fullmatch`.  The regex fragments actually produced are: literal
characters, `.` and `.*` under the `(?s:...)` dot-all flag, character
classes from `fnmatch.translate`, `[^/]+` for a bare `*` component, and
`/*` (zero or more separators).  We embed them as a small element list
whose concatenation is matched against the whole candidate string
(an existential split, which is what `re.fullmatch` accepts; the atomic
groups `fnmatch.translate` emits between `*` runs are an optimization that
does not change acceptance of a full anchored match). -/

/-- An element of the compiled regular expression. -/
inductive RElem where
  | lit (c : Char)
  | anyc
  | starAny
  | starLit (c : Char)
  | sepStar
  | notSepPlus
  | cls (neg : Bool) (items : List (Char × Char))
deriving DecidableEq, Repr

/-- Character-class membership: any item range hits, negated by the flag
(Python regex `[...]` / `[^...]` over code points). -/
def clsMatch (neg : Bool) (items : List (Char × Char)) (c : Char) : Bool :=
  let hit := items.any (fun ab => decide (ab.1 ≤ c ∧ c ≤ ab.2))
  if neg then !hit else hit

/-- Break a string at the first `']'`, returning the chunks before and
after it (the bracket-scan of `fnmatch.translate`). -/
def breakAtRB : List Char → Option (List Char × List Char)
  | [] => none
  | c :: rest =>
    if c = ']' then some ([], rest)
    else
      match breakAtRB rest with
      | none => none
      | some (a, b) => some (c :: a, b)

theorem breakAtRB_len : ∀ {l a b : List Char}, breakAtRB l = some (a, b) → b.length < l.length := by
  intro l
  induction l with
  | nil => intro a b h; simp [breakAtRB] at h
  | cons c rest ih =>
    intro a b h
    by_cases hc : c = ']'
    · simp [breakAtRB, hc] at h
      simp [← h.2]
    · simp only [breakAtRB, if_neg hc] at h
      match hb : breakAtRB rest with
      | none => rw [hb] at h; simp at h
      | some (a2, b2) =>
        rw [hb] at h
        simp at h
        have := ih hb
        simp [← h.2]
        omega

/-- Number of characters at the start of a bracket body that the closing
`']'` search of `fnmatch.translate` skips: a leading `'!'` and then a
leading `']'`. -/
def classSkip (rest : List Char) : Nat :=
  match rest with
  | '!' :: ']' :: _ => 2
  | '!' :: _ => 1
  | ']' :: _ => 1
  | _ => 0

/-- The bracket scan of `fnmatch.translate`: after an opening `'['`, skip a
leading `'!'` and then a leading `']'`, then find the closing `']'`.
Returns the class content (including the skipped characters) and the
remainder of the pattern, or `none` when the bracket is unterminated. -/
def scanClass (rest : List Char) : Option (List Char × List Char) :=
  match breakAtRB (rest.drop (classSkip rest)) with
  | none => none
  | some (a, b) => some (rest.take (classSkip rest) ++ a, b)

theorem scanClass_len {l a b : List Char} (h : scanClass l = some (a, b)) :
    b.length < l.length := by
  unfold scanClass at h
  cases hb : breakAtRB (l.drop (classSkip l)) with
  | none => rw [hb] at h; simp at h
  | some p =>
    obtain ⟨a2, b2⟩ := p
    rw [hb] at h
    simp at h
    obtain ⟨h3, h4⟩ := h
    subst h4
    have h1 := breakAtRB_len hb
    have h2 : (l.drop (classSkip l)).length ≤ l.length := by simp
    omega

/-- Class-content parse: items scanned left to right, where `x-y` (with a
character on both sides) is a code-point range and anything else is a
singleton; a leading or trailing `-` is a literal.  This is the semantics
of the class regex `fnmatch.translate` assembles (its removal of empty
ranges is acceptance-preserving). -/
def parseClassItems : List Char → List (Char × Char)
  | [] => []
  | a :: '-' :: b :: rest => (a, b) :: parseClassItems rest
  | a :: rest => (a, a) :: parseClassItems rest

/-- Build the class element from the scanned content: a leading `'!'`
negates. -/
def clsOf (content : List Char) : RElem :=
  match content with
  | '!' :: body => .cls true (parseClassItems body)
  | body => .cls false (parseClassItems body)

/-- Structural worker for the `fnmatch.translate` body: every step
consumes at least one character, so a fuel of the pattern length is
sufficient and the final result never depends on it. -/
def fnmatchTranslateAux : Nat → List Char → List RElem
  | 0, _ => []
  | fuel + 1, p =>
    match p with
    | [] => []
    | '*' :: rest => .starAny :: fnmatchTranslateAux fuel (rest.dropWhile (· = '*'))
    | '?' :: rest => .anyc :: fnmatchTranslateAux fuel rest
    | '[' :: rest =>
      match scanClass rest with
      | none => .lit '[' :: fnmatchTranslateAux fuel rest
      | some (content, rem) => clsOf content :: fnmatchTranslateAux fuel rem
    | c :: rest => .lit c :: fnmatchTranslateAux fuel rest

/-- Embedding of `fnmatch.translate(part)[:-2]` (the translated body
without its `\Z` anchor, used under `(?s:...)`): runs of `*` become one
dot-all `.*`, `?` becomes a dot-all `.`, `[...]` becomes a character class
(an unterminated `[` is a literal), anything else is a literal. -/
def fnmatchTranslate (p : List Char) : List RElem :=
  fnmatchTranslateAux p.length p

/-- Structural worker for the matcher: every recursive call strictly
decreases the combined length of the element list and the candidate, so a
fuel exceeding that sum is sufficient and the result never depends on
it. -/
def rmatchAux : Nat → List RElem → List Char → Bool
  | 0, _, _ => false
  | fuel + 1, re, str =>
    match re, str with
    | [], [] => true
    | [], _ :: _ => false
    | .lit _ :: _, [] => false
    | .lit c :: rs, x :: xs => x == c && rmatchAux fuel rs xs
    | .anyc :: _, [] => false
    | .anyc :: rs, _ :: xs => rmatchAux fuel rs xs
    | .cls _ _ :: _, [] => false
    | .cls neg items :: rs, x :: xs => clsMatch neg items x && rmatchAux fuel rs xs
    | .starAny :: rs, str2 =>
      rmatchAux fuel rs str2 ||
        match str2 with
        | [] => false
        | _ :: xs => rmatchAux fuel (.starAny :: rs) xs
    | .starLit c :: rs, str2 =>
      rmatchAux fuel rs str2 ||
        match str2 with
        | [] => false
        | x :: xs => x == c && rmatchAux fuel (.starLit c :: rs) xs
    | .sepStar :: rs, str2 =>
      rmatchAux fuel rs str2 ||
        match str2 with
        | [] => false
        | x :: xs => x == sepC && rmatchAux fuel (.sepStar :: rs) xs
    | .notSepPlus :: _, [] => false
    | .notSepPlus :: rs, x :: xs =>
      !(x == sepC) && (rmatchAux fuel rs xs || rmatchAux fuel (.notSepPlus :: rs) xs)

/-- Matcher for a compiled element list against a candidate string: the
whole string must be consumed (this is `re.fullmatch`; the final `\Z`
anchor of the source's regex is the empty remainder). -/
def rmatch (re : List RElem) (str : List Char) : Bool :=
  rmatchAux (re.length + str.length + 1) re str

/-- Interpretation of the raw regex text produced by the
`'**' in part` branch of `_compile_pattern_parts`
(`part.replace("**", ".*")` spliced into `(?s:...)`): `.` is a dot-all
any-character, a postfix `*` repeats the preceding atom, anything else is
literal.  (Patterns accepted by `glob` constrain `**` to whole components,
so this branch receives `.*` exactly; the general case is kept for
fidelity to the string splice.) -/
def simpleRegexOf : List Char → List RElem
  | [] => []
  | '.' :: '*' :: rest => .starAny :: simpleRegexOf rest
  | '.' :: rest => .anyc :: simpleRegexOf rest
  | c :: '*' :: rest => .starLit c :: simpleRegexOf rest
  | c :: rest => .lit c :: simpleRegexOf rest

/-- Embedding of `_is_wildcard_pattern`: the pattern contains `*`, `?` or
`[`. -/
def isWildcardPattern (pat : List Char) : Bool :=
  isSubstr (s "*") pat || isSubstr (s "?") pat || isSubstr (s "[") pat

/-- The regex fragment `_Selector._compile_pattern_parts` appends for one
path component: components equal to the separator are skipped; a component
containing `**` contributes `/*` plus its dot-all splice; a bare `*`
contributes `/[^/]+`; anything else contributes `/` plus its
`fnmatch.translate` body. -/
def partChunk (part : List Char) : List RElem :=
  if part = sepPart then []
  else if isSubstr (s "**") part then
    .sepStar :: simpleRegexOf (replaceAll (s "**") (s ".*") part)
  else if part = s "*" then [.lit sepC, .notSepPlus]
  else .lit sepC :: fnmatchTranslate part

/-- Embedding of `_Selector._compile_pattern_parts`: parse
`sep.join(('', bucket, prefix, pattern))`, concatenate the per-component
fragments and append the trailing `/*` (the `\Z` anchor is the matcher's
end-of-string). -/
def compilePatternParts (pfx pat bucket : List Char) : List RElem :=
  let full := sepC :: bucket ++ sepC :: pfx ++ sepC :: pat
  let parts := parsePathParts full
  (parts.foldl (fun acc part => acc ++ partChunk part) []) ++ [RElem.sepStar]

/-- Embedding of `_Selector._prefix_splitter`: a wildcard-free pattern is
all prefix; otherwise the longest leading run of wildcard-free components
(each separator-terminated) is split off and stripped from the pattern,
and the base path's key is prepended to the prefix. -/
def prefixSplitter (baseKey pattern : List Char) : List Char × List Char :=
  if !isWildcardPattern pattern then
    if baseKey ≠ [] then (baseKey ++ sepC :: pattern, [])
    else (pattern, [])
  else
    let parts := parsePathParts pattern
    let pfx := (parts.takeWhile (fun p => !isWildcardPattern p)).foldl
      (fun acc p => acc ++ p ++ [sepC]) []
    let pat2 := if hasPfx pfx pattern then pattern.drop pfx.length else pattern
    let pfx2 := if baseKey ≠ [] then baseKey ++ sepC :: pfx else pfx
    (pfx2, pat2)

/-- Embedding of `_Selector._calculate_pattern_level`: unbounded (`none`)
when the match suffix contains `**`, otherwise the component count of
prefix-plus-suffix. -/
def calcPatternLevel (pfx pat : List Char) : Option Nat :=
  if isSubstr (s "**") pat then none
  else
    let pat2 := if pfx ≠ [] then pfx ++ sepC :: pat else pat
    some (parsePathParts pat2).length

/-- Embedding of `_Selector._calculate_full_or_just_folder`: a full
(unbounded-depth) key scan when the suffix contains `**` or any non-final
component contains the character `*`. -/
def calcFullOrJustFolder (pat : List Char) : Bool :=
  if isSubstr (s "**") pat then true
  else ((parsePathParts pat).dropLast).any (fun p => isSubstr (s "*") p)

/-- The per-glob-call selector state assembled by `_Selector.__init__`. -/
structure Selector where
  pfx : List Char
  pat : List Char
  fullKeys : Bool
  targetLevel : Option Nat
  matchRe : List RElem

/-- Embedding of `_Selector.__init__` for a base path with the given
bucket and key. -/
def mkSelector (bucket baseKey pattern : List Char) : Selector :=
  let ps := prefixSplitter baseKey pattern
  { pfx := ps.1
    pat := ps.2
    fullKeys := calcFullOrJustFolder ps.2
    targetLevel := calcPatternLevel ps.1 ps.2
    matchRe := compilePatternParts ps.1 ps.2 bucket }

/-- Python `str.rsplit(sep, maxsplit)`: split from the right at most
`maxsplit` times (negative means unlimited). -/
def pyRsplitSep (l : List Char) (maxsplit : Int) : List (List Char) :=
  let parts := splitOnSep l
  let nsep : Int := (parts.length : Int) - 1
  if maxsplit < 0 ∨ nsep ≤ maxsplit then parts
  else
    let keep := parts.length - maxsplit.toNat
    joinSep (parts.take keep) :: parts.drop keep

/-- Python slice `l[:n]` where `n` may be `None`. -/
def pySliceTo (l : List (List Char)) : Option Nat → List (List Char)
  | none => l
  | some k => l.take k

/-- The per-key part list of `_Selector._deep_cached_dir_scan`:
`key.rsplit(sep, maxsplit=key.count(sep) + 1 - prefix.count(sep))`
truncated to the target level. -/
def targetParts (pfx : List Char) (tl : Option Nat) (key : List Char) : List (List Char) :=
  let keySepCount : Int := (countSep key : Int) + 1
  let maxsplit : Int := keySepCount - (countSep pfx : Int)
  pySliceTo (pyRsplitSep key maxsplit) tl

/-- The inner loop of `_Selector._deep_cached_dir_scan`: accumulate
`/part` onto the running target path, skipping empty parts, yielding each
target path not yet in the cache and adding it.  Returns the yielded
levels (in order) and the updated cache. -/
def dirLevels (parts : List (List Char)) (targetPath : List Char) (cache : List (List Char)) :
    List (List Char) × List (List Char) :=
  match parts with
  | [] => ([], cache)
  | part :: rest =>
    if part = [] then dirLevels rest targetPath cache
    else
      let tp := targetPath ++ sepC :: part
      if tp ∈ cache then dirLevels rest tp cache
      else
        let r := dirLevels rest tp (cache ++ [tp])
        (tp :: r.1, r.2)

/-- Embedding of `_Selector._deep_cached_dir_scan`: run the inner loop over
every scanned key, threading one cache through the whole invocation. -/
def deepScan (pfx : List Char) (tl : Option Nat) (keys : List (List Char)) :
    List (List Char) :=
  (keys.foldl
    (fun acc key =>
      let r := dirLevels (targetParts pfx tl key) [] acc.2
      (acc.1 ++ r.1, r.2))
    ([], [])).1

/-! ### Listing collaborator

Modelled collaborator: the boto3 `list_objects_v2` call (spec sections 4.3
and 6), a pure function over the abstract list of keys held by the bucket,
given in listing order.  Pagination is collapsed into one complete page;
an empty scan prefix (for which the source omits the `Prefix` kwarg)
matches every key, which coincides with filtering by the empty string. -/

/-- The common prefix one delimited listing groups a key into, when the
remainder after the scan prefix contains the delimiter: the scan prefix
plus the remainder up to and including its first separator. -/
def commonPfxOf (pfx k : List Char) : Option (List Char) :=
  let rest := k.drop pfx.length
  if sepC ∈ rest then some (pfx ++ rest.takeWhile (fun c => !(c == sepC)) ++ [sepC])
  else none

/-- First-occurrence deduplication (S3 reports each common prefix once). -/
def dedupe (l : List (List Char)) : List (List Char) :=
  l.foldl (fun acc x => if x ∈ acc then acc else acc ++ [x]) []

/-- Modelled `list_objects_v2` over a bucket's key list: contents and (when
delimited) common prefixes. -/
def listObjectsV2 (store : List (List Char)) (pfx : List Char) (delimited : Bool) :
    List (List Char) × List (List Char) :=
  if delimited then
    ( store.filter (fun k => hasPfx pfx k && decide (sepC ∉ k.drop pfx.length))
    , dedupe (store.filterMap (fun k => if hasPfx pfx k then commonPfxOf pfx k else none)))
  else
    (store.filter (fun k => hasPfx pfx k), [])

/-- Embedding of `accessor.iter_keys` for a path with a bucket: contents
are yielded before common prefixes, exactly as `get_keys` does per page. -/
def iterKeys (store : List (List Char)) (pfx : List Char) (fullKeys : Bool) :
    List (List Char) :=
  let r := listObjectsV2 store pfx (!fullKeys)
  r.1 ++ r.2

/-- Embedding of `_Selector.select`: scan, prepend `/bucket`, filter by the
compiled predicate, and construct the resulting path object (whose
construction re-runs `PureS3Path.__init__`, hence the `Option`). -/
def selectorSelect (bucket baseKey : List Char) (store : List (List Char))
    (pattern : List Char) : List (Option PyPath) :=
  let sel := mkSelector bucket baseKey pattern
  let keys := iterKeys store sel.pfx sel.fullKeys
  (deepScan sel.pfx sel.targetLevel keys).filterMap (fun t =>
    let target := sepC :: (bucket ++ t)
    if rmatch sel.matchRe target then some (pyNormalize target) else none)

/-- Python exception kinds raised by the embedded operations. -/
inductive PyErr where
  | valueError
  | typeError
  | notImplementedError
deriving DecidableEq, Repr

instance {ε α : Type} [DecidableEq ε] [DecidableEq α] : DecidableEq (Except ε α) := by
  intro a b
  cases a with
  | error e =>
    cases b with
    | error f => exact decidable_of_iff (e = f) (by constructor <;> (intro h; simp_all))
    | ok y => exact isFalse (by intro h; cases h)
  | ok x =>
    cases b with
    | error f => exact isFalse (by intro h; cases h)
    | ok y => exact decidable_of_iff (x = y) (by constructor <;> (intro h; simp_all))

/-- Embedding of `S3Path.glob` for an absolute base path with the given
bucket and key over the modelled bucket store: validate the pattern (empty
patterns and misplaced `**` are invalid arguments, rooted patterns are
not-implemented), then run the selector. -/
def globS3 (bucket baseKey : List Char) (store : List (List Char)) (pattern : List Char) :
    Except PyErr (List (Option PyPath)) :=
  if pattern = [] then .error .valueError
  else if (rootOf pattern).isSome then .error .notImplementedError
  else if (parsePathParts pattern).any
      (fun part => decide (part ≠ s "**") && isSubstr (s "**") part) then
    .error .valueError
  else .ok (selectorSelect bucket baseKey store pattern)

/-! ### Path properties (`PureS3Path.bucket` / `PureS3Path.key`) and `S3Path.stat` -/

/-- Embedding of `PureS3Path.bucket`: validate absoluteness (a relative
path raises `ValueError`), then unpack `_, bucket, *_ = self.parts`,
returning the empty string when the unpacking fails (fewer than two
parts). -/
def bucketProp (p : PyPath) : Except PyErr (List Char) :=
  if !pyIsAbs p then .error .valueError
  else
    match p with
    | _ :: b :: _ => .ok b
    | _ => .ok []

/-- Embedding of `PureS3Path.key`: validate absoluteness, then join
`self.parts[2:]` with the separator. -/
def keyProp (p : PyPath) : Except PyErr (List Char) :=
  if !pyIsAbs p then .error .valueError
  else .ok (joinSep (p.drop 2))

/-- Outcome of `S3Path.stat`: the literal `None` return, or a remote
`accessor.stat` lookup (the only branch that talks to the store). -/
inductive StatOutcome where
  | noneValue
  | remoteStat
deriving DecidableEq, Repr

/-- Embedding of `S3Path.stat`: reject `follow_symlinks=False`, validate
absoluteness, return `None` when the key is empty, otherwise defer to the
remote accessor. -/
def statS3 (p : PyPath) (followSymlinks : Bool) : Except PyErr StatOutcome :=
  if !followSymlinks then .error .notImplementedError
  else if !pyIsAbs p then .error .valueError
  else
    match keyProp p with
    | .error e => .error e
    | .ok k => if k = [] then .ok .noneValue else .ok .remoteStat

/-! ### Configuration resolution map (`_S3ConfigurationMap`)

The resource handles boto3 constructs are opaque; the map is parametrized
by their type `R`.  The `lru_cache` on `get_configuration` is invalidated
on every registration, so the memoization is observationally transparent
and the lookup is embedded as a pure function of the current state. -/

/-- Argument-override dictionaries (string keyed). -/
def Args : Type := List (List Char × List Char)

instance : DecidableEq Args := by
  unfold Args
  infer_instance

/-- The process-wide configuration state: the three per-prefix
dictionaries and the one-time-setup flag (`__init__` leaves the
dictionaries unset). -/
structure ConfigState (R : Type) where
  arguments : List (List Char × Args)
  resources : List (List Char × R)
  generalOptions : List (List Char × Bool)
  isSetup : Bool
deriving DecidableEq

/-- The state `_S3ConfigurationMap.__init__` leaves behind. -/
def initialConfig {R : Type} : ConfigState R :=
  { arguments := [], resources := [], generalOptions := [], isSetup := false }

/-- Python dict assignment `m[k] = v` for an association list. -/
def updateAssoc {V : Type} (m : List (List Char × V)) (k : List Char) (v : V) :
    List (List Char × V) :=
  if m.any (fun kv => kv.1 = k) then
    m.map (fun kv => if kv.1 = k then (k, v) else kv)
  else m ++ [(k, v)]

/-- Python `k in m` plus `m[k]` for an association list. -/
def lookupAssoc {V : Type} (m : List (List Char × V)) (k : List Char) : Option V :=
  (m.find? (fun kv => kv.1 = k)).map (fun kv => kv.2)

/-- Embedding of `_S3ConfigurationMap._delayed_setup`: the first use
installs the root defaults (`'/' ↦ {}` arguments, `'/' ↦ default
resource`, `'/' ↦ glob_new_algorithm=True`). -/
def delayedSetup {R : Type} (defaultR : R) (st : ConfigState R) : ConfigState R :=
  if st.isSetup then st
  else
    { arguments := [(s "/", ([] : Args))]
      resources := [(s "/", defaultR)]
      generalOptions := [(s "/", true)]
      isSetup := true }

/-- Embedding of `_S3ConfigurationMap.set_configuration`: run the delayed
setup, store each non-`None` field under `str(path)`, and clear the lookup
cache (a no-op for the pure embedding). -/
def setConfiguration {R : Type} (defaultR : R) (pathName : List Char)
    (resource : Option R) (arguments : Option Args) (globNewAlgorithm : Option Bool)
    (st : ConfigState R) : ConfigState R :=
  let st1 := delayedSetup defaultR st
  let st2 :=
    match arguments with
    | some a => { st1 with arguments := updateAssoc st1.arguments pathName a }
    | none => st1
  let st3 :=
    match resource with
    | some r => { st2 with resources := updateAssoc st2.resources pathName r }
    | none => st2
  match globNewAlgorithm with
  | some g => { st3 with generalOptions := updateAssoc st3.generalOptions pathName g }
  | none => st3

/-- Embedding of `PurePath.parent` on the posix flavour: drop the last
component unless the path is a pure root or empty. -/
def pyParent (p : PyPath) : PyPath :=
  let tailLen := if pyIsAbs p then p.length - 1 else p.length
  if tailLen = 0 then p else p.dropLast

/-- Structural worker for the ancestor walk: each step drops one trailing
component, so a fuel of the parts-list length is sufficient and the result
never depends on it. -/
def parentsOfAux : Nat → PyPath → List PyPath
  | 0, _ => []
  | fuel + 1, p =>
    if pyParent p = p then [] else pyParent p :: parentsOfAux fuel (pyParent p)

/-- Embedding of `PurePath.parents`: every proper ancestor, nearest first,
ending at the root (absolute) or at `'.'` (relative). -/
def parentsOf (p : PyPath) : List PyPath :=
  parentsOfAux (List.length p) p

/-- Embedding of `_S3ConfigurationMap.get_configuration`: run the delayed
setup, then walk `chain([path], path.parents)` keeping the first explicit
resource entry and, independently, the first explicit arguments entry. -/
def getConfiguration {R : Type} (defaultR : R) (st : ConfigState R) (p : PyPath) :
    Option R × Option Args :=
  let st1 := delayedSetup defaultR st
  (p :: parentsOf p).foldl
    (fun acc q =>
      let name := strOf q
      ( (match acc.1 with
         | some r => some r
         | none => lookupAssoc st1.resources name)
      , (match acc.2 with
         | some a => some a
         | none => lookupAssoc st1.arguments name)))
    (none, none)

/-- Embedding of `register_configuration_parameter`: a non-`PureS3Path`
path raises `TypeError` (the `isinstance` check is represented by the
`pathIsS3` flag; the `parameters`-must-be-a-dict `TypeError` is
unrepresentable in the typed model), all three optional fields absent
raises `ValueError`, otherwise the fields are stored under `str(path)`. -/
def registerConfigurationParameter {R : Type} (defaultR : R) (pathIsS3 : Bool)
    (path : PyPath) (parameters : Option Args) (resource : Option R)
    (globNewAlgorithm : Option Bool) (st : ConfigState R) :
    Except PyErr (ConfigState R) :=
  if !pathIsS3 then .error .typeError
  else if parameters.isNone && resource.isNone && globNewAlgorithm.isNone then
    .error .valueError
  else .ok (setConfiguration defaultR (strOf path) resource parameters globNewAlgorithm st)

/-! ### Versioned paths (`PureVersionedS3Path`) -/

/-- An argument passed to versioned-path arithmetic: a raw string, a plain
path object, or a versioned path object. -/
inductive SArg where
  | strv (v : List Char)
  | plainPath (p : PyPath)
  | versionedPath (p : PyPath) (vid : List Char)
deriving DecidableEq

/-- A path value produced by path arithmetic: plain `S3Path` or
`VersionedS3Path` carrying a version identifier. -/
inductive SVal where
  | plain (p : PyPath)
  | versioned (p : PyPath) (vid : List Char)
deriving DecidableEq

/-- Whether a result value carries a version identifier. -/
def SVal.isVersioned : SVal → Bool
  | .plain _ => false
  | .versioned _ _ => true

/-- Raw parts an argument contributes to a pathlib join: a string is
parsed (keeping `'..'`), a path object contributes its stored parts. -/
def rawPartsOfArg : SArg → List (List Char)
  | .strv v => pyPartsRaw v
  | .plainPath p => p
  | .versionedPath p _ => p

/-- One step of a pathlib join: a later absolute segment resets the
accumulated parts. -/
def joinParts (a b : List (List Char)) : List (List Char) :=
  if pyIsAbs b then b else a ++ b

/-- Embedding of `PureVersionedS3Path.__truediv__` on a versioned path
`p` (with version `vid`): a string key is first constructed as a plain
`S3Path` (running `'..'` elimination), then `key.__rtruediv__(self)`
joins and builds a path of the key's own type — plain for a plain key,
versioned with the key's version identifier for a versioned key. -/
def truedivV (p : PyPath) (vid : List Char) (arg : SArg) : Option SVal :=
  match arg with
  | .strv v =>
    (pyNormalize v).bind (fun kq =>
      (elimDotDot (joinParts p kq)).map (fun r => SVal.plain r))
  | .plainPath q => (elimDotDot (joinParts p q)).map (fun r => SVal.plain r)
  | .versionedPath q qvid =>
    (elimDotDot (joinParts p q)).map (fun r => SVal.versioned r qvid)

/-- Embedding of `PureVersionedS3Path.joinpath` on a versioned path `p`
(with version `vid`): no arguments returns `self`; otherwise the parent
`joinpath` builds a versioned path through `with_segments` (one `'..'`
elimination over the concatenated raw parts); a versioned last argument
re-attaches its version identifier, any other last argument rebuilds the
result as a plain `S3Path` (re-running `PureS3Path.__init__`). -/
def joinpathV (p : PyPath) (vid : List Char) (args : List SArg) : Option SVal :=
  match args.getLast? with
  | none => some (SVal.versioned p vid)
  | some lastA =>
    let combined := args.foldl (fun acc a => joinParts acc (rawPartsOfArg a)) p
    match lastA with
    | .versionedPath _ qvid =>
      (elimDotDot combined).map (fun r => SVal.versioned r qvid)
    | _ =>
      (elimDotDot combined).bind (fun r => (elimDotDot r).map (fun r2 => SVal.plain r2))

/-! ## General lemmas -/

theorem splitOnSep_ne_nil (r : List Char) : splitOnSep r ≠ [] := by
  cases r with
  | nil => simp [splitOnSep]
  | cons c cs =>
    simp only [splitOnSep]
    cases h : splitOnSep cs with
    | nil => simp
    | cons a t =>
      by_cases hc : c = sepC <;> simp [hc]

theorem splitOnSep_no_sep (w : List Char) (hw : sepC ∉ w) : splitOnSep w = [w] := by
  induction w with
  | nil => rfl
  | cons c cs ih =>
    have hc : c ≠ sepC := fun h => hw (by simp [h])
    have hcs : sepC ∉ cs := fun h => hw (List.mem_cons_of_mem _ h)
    simp [splitOnSep, ih hcs, hc]

theorem splitOnSep_sep_cons (r : List Char) : splitOnSep (sepC :: r) = [] :: splitOnSep r := by
  obtain ⟨h0, t0, hr⟩ := List.exists_cons_of_ne_nil (splitOnSep_ne_nil r)
  simp [splitOnSep, hr]

theorem splitOnSep_append (w r : List Char) (hw : sepC ∉ w) :
    splitOnSep (w ++ sepC :: r) = w :: splitOnSep r := by
  induction w with
  | nil => simpa using splitOnSep_sep_cons r
  | cons c cs ih =>
    have hc : c ≠ sepC := fun h => hw (by simp [h])
    have hcs : sepC ∉ cs := fun h => hw (List.mem_cons_of_mem _ h)
    simp only [List.cons_append, splitOnSep, List.append_eq]
    rw [ih hcs]
    simp [hc]

theorem joinSep_cons (p : List Char) (q : List (List Char)) (hq : q ≠ []) :
    joinSep (p :: q) = p ++ sepC :: joinSep q := by
  cases q with
  | nil => exact absurd rfl hq
  | cons a t => rfl

theorem splitOnSep_joinSep (parts : List (List Char)) (hne : parts ≠ [])
    (h : ∀ p ∈ parts, sepC ∉ p) : splitOnSep (joinSep parts) = parts := by
  induction parts with
  | nil => exact absurd rfl hne
  | cons p rest ih =>
    cases rest with
    | nil => exact splitOnSep_no_sep p (h p (by simp))
    | cons q t =>
      rw [joinSep_cons p (q :: t) (by simp)]
      rw [splitOnSep_append p _ (h p (by simp))]
      rw [ih (by simp) (fun x hx => h x (List.mem_cons_of_mem _ hx))]

theorem countSep_no_sep (w : List Char) (hw : sepC ∉ w) : countSep w = 0 :=
  List.count_eq_zero.mpr hw

theorem rootOf_of_head_ne {x : Char} {xs : List Char} (hx : x ≠ sepC) :
    rootOf (x :: xs) = none := by
  unfold rootOf
  split
  · rename_i heq
    exact absurd (List.cons.inj heq).1 hx
  · rename_i heq
    exact absurd (List.cons.inj heq).1 hx
  · rfl

theorem rmatchAux_nil_re (fuel : Nat) (t : List Char) (hf : 0 < fuel) :
    (rmatchAux fuel [] t = true ↔ t = []) := by
  cases fuel with
  | zero => omega
  | succ k =>
    cases t with
    | nil => simp [rmatchAux]
    | cons x xs => simp [rmatchAux]

theorem rmatchAux_notSepPlus (fuel : Nat) (t : List Char) (hf : t.length + 1 < fuel) :
    (rmatchAux fuel [RElem.notSepPlus] t = true ↔ t ≠ [] ∧ sepC ∉ t) := by
  induction fuel generalizing t with
  | zero => omega
  | succ k ih =>
    cases t with
    | nil => simp [rmatchAux]
    | cons x xs =>
      have hlen : xs.length + 1 < k := by
        simp only [List.length_cons] at hf
        omega
      simp only [rmatchAux, Bool.and_eq_true, Bool.or_eq_true, Bool.not_eq_true',
        beq_eq_false_iff_ne]
      rw [rmatchAux_nil_re k xs (by omega), ih xs hlen]
      constructor
      · rintro ⟨hx, h2⟩
        refine ⟨by simp, ?_⟩
        intro hmem
        rcases List.mem_cons.mp hmem with h | h
        · exact hx h.symm
        · rcases h2 with h2 | h2
          · subst h2; simp at h
          · exact h2.2 h
      · rintro ⟨-, hmem⟩
        refine ⟨fun hx => hmem (by simp [hx]), ?_⟩
        by_cases hxs : xs = []
        · exact Or.inl hxs
        · exact Or.inr ⟨hxs, fun hm => hmem (List.mem_cons_of_mem _ hm)⟩

theorem rmatch_bare_star_chunk (t : List Char) :
    (rmatch [RElem.lit sepC, RElem.notSepPlus] t = true ↔
      ∃ u, t = sepC :: u ∧ u ≠ [] ∧ sepC ∉ u) := by
  cases t with
  | nil =>
    constructor
    · intro h
      simp [rmatch, rmatchAux] at h
    · rintro ⟨u, hu, _, _⟩
      cases hu
  | cons x xs =>
    have hstep : rmatch [RElem.lit sepC, RElem.notSepPlus] (x :: xs)
        = (x == sepC && rmatchAux (2 + (x :: xs).length) [RElem.notSepPlus] xs) := rfl
    rw [hstep, Bool.and_eq_true, beq_iff_eq]
    rw [rmatchAux_notSepPlus (2 + (x :: xs).length) xs (by simp)]
    constructor
    · rintro ⟨hx, h1, h2⟩
      exact ⟨xs, by rw [hx], h1, h2⟩
    · rintro ⟨u, hu, h1, h2⟩
      obtain ⟨hx, hxs⟩ := List.cons.inj hu
      subst hxs
      exact ⟨hx, h1, h2⟩

/-! ## Claims -/

/-- C1: for a base path whose prefix holds exactly the keys `a.ext`,
`b.ext` and `sub/c.ext`, `glob('*.ext')` yields exactly `a.ext` and
`b.ext` (neither `sub` nor `sub/c.ext`), and `glob('**/*.ext')` yields
exactly `a.ext`, `b.ext` and `sub/c.ext`. -/
theorem glob_ext_exact_sets :
    globS3 (s "bucket") [] [s "a.ext", s "b.ext", s "sub/c.ext"] (s "*.ext")
      = .ok [some [s "/", s "bucket", s "a.ext"], some [s "/", s "bucket", s "b.ext"]]
    ∧ globS3 (s "bucket") [] [s "a.ext", s "b.ext", s "sub/c.ext"] (s "**/*.ext")
      = .ok [some [s "/", s "bucket", s "a.ext"], some [s "/", s "bucket", s "b.ext"],
             some [s "/", s "bucket", s "sub", s "c.ext"]] := by
  constructor <;> decide

/-- C2 counterexample: the predicate compiled from the single-component
pattern `*.ext` (a `*` inside a component, not a bare `*`) accepts
`/b/sub/c.ext`, whose remainder after the bucket contains a separator, so
the `*` matched across `/` — the claim that a `*` occurring inside a
component never matches text containing the separator is false. -/
theorem compiled_star_crosses_separator :
    rmatch (compilePatternParts [] (s "*.ext") (s "b")) (s "/b/sub/c.ext") = true
    ∧ sepC ∈ s "sub/c.ext" := by
  constructor <;> decide

/-- C2 amended: the single-segment translation `/[^/]+` applies exactly to
components that are bare `*` (matching one nonempty separator-free
segment); a component containing `*` together with other text is
translated by `fnmatch` in dot-all mode and may match across separators;
a `**` component becomes optional separators plus dot-all `.*`, matching
across separators; and the compiled regex is matched against the whole
candidate, anchored at both ends modulo trailing separators. -/
theorem compiled_pattern_translation :
    (partChunk (s "*") = [RElem.lit sepC, RElem.notSepPlus]
      ∧ ∀ t : List Char,
          (rmatch [RElem.lit sepC, RElem.notSepPlus] t = true ↔
            ∃ u, t = sepC :: u ∧ u ≠ [] ∧ sepC ∉ u))
    ∧ rmatch (compilePatternParts [] (s "*.ext") (s "b")) (s "/b/sub/c.ext") = true
    ∧ partChunk (s "**") = [RElem.sepStar, RElem.starAny]
    ∧ rmatch (compilePatternParts [] (s "**/x") (s "b")) (s "/b/p/q/x") = true
    ∧ rmatch (compilePatternParts [] (s "a") (s "b")) (s "/b/a") = true
    ∧ rmatch (compilePatternParts [] (s "a") (s "b")) (s "/b/a/") = true
    ∧ rmatch (compilePatternParts [] (s "a") (s "b")) (s "/b/ax") = false
    ∧ rmatch (compilePatternParts [] (s "a") (s "b")) (s "/b/a/x") = false := by
  exact ⟨⟨by decide, rmatch_bare_star_chunk⟩, by decide, by decide, by decide, by decide,
    by decide, by decide, by decide⟩

/-- C2 amended witness: the bare-`*` chunk characterization applied at a
concrete candidate. -/
theorem compiled_pattern_translation_witness :
    rmatch [RElem.lit sepC, RElem.notSepPlus] (s "/ab") = true := by
  exact (compiled_pattern_translation.1.2 (s "/ab")).mpr
    ⟨s "ab", by decide, by decide, by decide⟩

/-- C4: `_calculate_full_or_just_folder` tests non-final components only
for the character `*`, not for the wildcard characters `?` or `[` — so for
the pattern `?x/y` the selector chooses the single-level delimiter scan,
and glob over a bucket holding the key `ax/y` yields nothing even though
the compiled predicate accepts `/bucket/ax/y`; a full scan (as the spec
requires for a wildcard in a non-final component) would have yielded it. -/
theorem glob_question_mark_scan_mode_bug :
    calcFullOrJustFolder (s "?x/y") = false
    ∧ (mkSelector (s "bucket") [] (s "?x/y")).fullKeys = false
    ∧ globS3 (s "bucket") [] [s "ax/y"] (s "?x/y") = .ok []
    ∧ rmatch (mkSelector (s "bucket") [] (s "?x/y")).matchRe (s "/bucket/ax/y") = true
    ∧ globS3 (s "bucket") [] [s "ax/y"] (s "*x/y")
        = .ok [some [s "/", s "bucket", s "ax", s "y"]] := by
  refine ⟨?_, ?_, ?_, ?_, ?_⟩ <;> decide

/-- C6 counterexample: the input `/..` is absolute (its parse carries the
root marker), yet the `'..'` elimination of `PureS3Path.__init__` pops the
element before the `'..'` — here the root marker itself — leaving the
empty (relative) parts list: normalization does cross above the root. -/
theorem root_marker_removed_counterexample :
    pyIsAbs (pyPartsRaw (s "/..")) = true
    ∧ pyNormalize (s "/..") = some []
    ∧ pyIsAbs ([] : PyPath) = false := by
  exact ⟨by decide, by decide, by decide⟩

theorem beq_dd_false {x : List Char} (h : x ≠ dd) : (x == dd) = false :=
  beq_eq_false_iff_ne.mpr h

/-- C6 amended: parsing eliminates each `..` segment beyond the first
position by removing both the `..` and the element immediately preceding
it, with repeated reductions applied left-to-right (`a/b/../c` parses to
`a/c` and `a/b/../../c` to `c`); when the element preceding a `..` is the
root marker itself the root marker is removed (normalization can cross
above the root, as `/..` parsing to the empty relative path shows). -/
theorem elimFold_skip {st : Option (List (List Char))} {part : List Char} (h : part ≠ dd) :
    (st.bind (fun l => if part = dd then elimStep l else some l)) = st := by
  cases st <;> simp [h]

theorem elimFold_dd (l : List (List Char)) :
    ((some l).bind (fun q => if dd = dd then elimStep q else some q)) = elimStep l := by
  simp

theorem dotdot_elimination
    (a b c : List Char)
    (hsa : sepC ∉ a) (hsb : sepC ∉ b) (hsc : sepC ∉ c)
    (ha0 : a ≠ []) (hb0 : b ≠ []) (hc0 : c ≠ [])
    (had : a ≠ dot) (hbd : b ≠ dot) (hcd : c ≠ dot)
    (hadd : a ≠ dd) (hbdd : b ≠ dd) (hcdd : c ≠ dd) :
    pyNormalize (joinSep [a, b, dd, c]) = some [a, c]
    ∧ pyNormalize (joinSep [a, b, dd, dd, c]) = some [c]
    ∧ pyNormalize (s "/..") = some [] := by
  have hdds : sepC ∉ dd := by decide
  have hddf : dd ≠ [] ∧ dd ≠ dot := by decide
  have hraw : ∀ (parts : List (List Char)), parts ≠ [] → (∀ p ∈ parts, sepC ∉ p) →
      (∀ p ∈ parts, p ≠ [] ∧ p ≠ dot) →
      pyPartsRaw (joinSep parts) = parts := by
    intro parts hne hsep hfil
    unfold pyPartsRaw parsePathParts
    have hsplit := splitOnSep_joinSep parts hne hsep
    have hroot : rootOf (joinSep parts) = none := by
      obtain ⟨p, rest, rfl⟩ := List.exists_cons_of_ne_nil hne
      obtain ⟨x, xs, rfl⟩ := List.exists_cons_of_ne_nil (hfil p (by simp)).1
      have hx : x ≠ sepC := fun hxe => hsep (x :: xs) (by simp) (by simp [hxe])
      cases rest with
      | nil => exact rootOf_of_head_ne hx
      | cons q t =>
        rw [joinSep_cons _ _ (by simp)]
        exact rootOf_of_head_ne hx
    rw [hroot, hsplit]
    exact List.filter_eq_self.mpr (fun p hp => decide_eq_true (hfil p hp))
  have hstep1 : elimStep [a, b, dd, c] = some [a, c] := by
    unfold elimStep
    rw [List.indexOf?_cons, List.indexOf?_cons, List.indexOf?_cons]
    rw [beq_dd_false hadd, beq_dd_false hbdd, beq_self_eq_true]
    simp only [Bool.false_eq_true, if_false, if_true, Option.map_some]
    show some (([a, b, dd, c].eraseIdx 1).erase dd) = some [a, c]
    rw [List.eraseIdx_cons_succ, List.eraseIdx_cons_zero]
    rw [List.erase_cons, beq_dd_false hadd]
    simp
  have hstep2 : elimStep [a, b, dd, dd, c] = some [a, dd, c] := by
    unfold elimStep
    rw [List.indexOf?_cons, List.indexOf?_cons, List.indexOf?_cons]
    rw [beq_dd_false hadd, beq_dd_false hbdd, beq_self_eq_true]
    simp only [Bool.false_eq_true, if_false, if_true, Option.map_some]
    show some (([a, b, dd, dd, c].eraseIdx 1).erase dd) = some [a, dd, c]
    rw [List.eraseIdx_cons_succ, List.eraseIdx_cons_zero]
    rw [List.erase_cons, beq_dd_false hadd]
    simp
  have hstep3 : elimStep [a, dd, c] = some [c] := by
    unfold elimStep
    rw [List.indexOf?_cons, List.indexOf?_cons]
    rw [beq_dd_false hadd, beq_self_eq_true]
    simp only [Bool.false_eq_true, if_false, if_true, Option.map_some]
    show some (([a, dd, c].eraseIdx 0).erase dd) = some [c]
    rw [List.eraseIdx_cons_zero]
    simp
  refine ⟨?_, ?_, by decide⟩
  · have hp1 : pyPartsRaw (joinSep [a, b, dd, c]) = [a, b, dd, c] := by
      refine hraw _ (by simp) ?_ ?_
      · intro p hp
        simp only [List.mem_cons, List.not_mem_nil, or_false] at hp
        rcases hp with rfl | rfl | rfl | rfl
        · exact hsa
        · exact hsb
        · exact hdds
        · exact hsc
      · intro p hp
        simp only [List.mem_cons, List.not_mem_nil, or_false] at hp
        rcases hp with rfl | rfl | rfl | rfl
        · exact ⟨ha0, had⟩
        · exact ⟨hb0, hbd⟩
        · exact hddf
        · exact ⟨hc0, hcd⟩
    unfold pyNormalize
    rw [hp1]
    show ([b, dd, c].foldl
        (fun st part => st.bind (fun l => if part = dd then elimStep l else some l))
        (some [a, b, dd, c])) = some [a, c]
    simp only [List.foldl_cons, List.foldl_nil]
    simp [hbdd, hcdd, hstep1]
  · have hp2 : pyPartsRaw (joinSep [a, b, dd, dd, c]) = [a, b, dd, dd, c] := by
      refine hraw _ (by simp) ?_ ?_
      · intro p hp
        simp only [List.mem_cons, List.not_mem_nil, or_false] at hp
        rcases hp with rfl | rfl | rfl | rfl | rfl
        · exact hsa
        · exact hsb
        · exact hdds
        · exact hdds
        · exact hsc
      · intro p hp
        simp only [List.mem_cons, List.not_mem_nil, or_false] at hp
        rcases hp with rfl | rfl | rfl | rfl | rfl
        · exact ⟨ha0, had⟩
        · exact ⟨hb0, hbd⟩
        · exact hddf
        · exact hddf
        · exact ⟨hc0, hcd⟩
    unfold pyNormalize
    rw [hp2]
    show ([b, dd, dd, c].foldl
        (fun st part => st.bind (fun l => if part = dd then elimStep l else some l))
        (some [a, b, dd, dd, c])) = some [c]
    simp only [List.foldl_cons, List.foldl_nil]
    simp [hbdd, hcdd, hstep2, hstep3]
/-- C6 amended witness: the elimination evaluated at `a/b/../c` and
`a/b/../../c`. -/
theorem dotdot_elimination_witness :
    pyNormalize (joinSep [s "a", s "b", dd, s "c"]) = some [s "a", s "c"]
    ∧ pyNormalize (joinSep [s "a", s "b", dd, dd, s "c"]) = some [s "c"] := by
  have h := dotdot_elimination (s "a") (s "b") (s "c")
    (by decide) (by decide) (by decide) (by decide) (by decide) (by decide)
    (by decide) (by decide) (by decide) (by decide) (by decide) (by decide)
  exact ⟨h.1, h.2.1⟩

/-- C7: for every absolute path with at least two parts the bucket is the
second part and the key is the remaining parts joined by the separator;
for a bucket-only absolute path the key is empty; and both properties
raise the invalid-argument error on a relative path. -/
theorem bucket_key_properties :
    (∀ (b : List Char) (rest : List (List Char)),
        bucketProp (sepPart :: b :: rest) = .ok b
        ∧ keyProp (sepPart :: b :: rest) = .ok (joinSep rest)
        ∧ keyProp [sepPart, b] = .ok [])
    ∧ (∀ p : PyPath, pyIsAbs p = false →
        bucketProp p = .error .valueError ∧ keyProp p = .error .valueError) := by
  constructor
  · intro b rest
    have habs : pyIsAbs (sepPart :: b :: rest) = true := by
      simp [pyIsAbs]
    refine ⟨?_, ?_, ?_⟩
    · simp [bucketProp, habs]
    · simp [keyProp, habs]
    · simp [keyProp, pyIsAbs, joinSep]
  · intro p hp
    exact ⟨by simp [bucketProp, hp], by simp [keyProp, hp]⟩

/-- C7 witness: the properties evaluated on `/b/k1/k2` and on the relative
path `a`. -/
theorem bucket_key_properties_witness :
    bucketProp [sepPart, s "b", s "k1", s "k2"] = .ok (s "b")
    ∧ keyProp [sepPart, s "b", s "k1", s "k2"] = .ok (joinSep [s "k1", s "k2"])
    ∧ bucketProp [s "a"] = .error .valueError :=
  ⟨(bucket_key_properties.1 (s "b") [s "k1", s "k2"]).1,
   (bucket_key_properties.1 (s "b") [s "k1", s "k2"]).2.1,
   (bucket_key_properties.2 [s "a"] (by decide)).1⟩

/-- C10: for every absolute path whose key is empty (the root or a
bucket-only path), `stat` returns the `None` value without raising and
without the remote accessor call. -/
theorem stat_empty_key_returns_none (p : PyPath) (habs : pyIsAbs p = true)
    (hkey : joinSep (p.drop 2) = []) :
    statS3 p true = .ok .noneValue := by
  simp [statS3, keyProp, habs, hkey]

/-- C10 witness: `stat` on the bucket-only path `/bucket` and on the
root. -/
theorem stat_empty_key_returns_none_witness :
    statS3 [sepPart, s "bucket"] true = .ok .noneValue
    ∧ statS3 [sepPart] true = .ok .noneValue :=
  ⟨stat_empty_key_returns_none [sepPart, s "bucket"] (by decide) (by decide),
   stat_empty_key_returns_none [sepPart] (by decide) (by decide)⟩

/-- C5: after registering arguments at `/A` and a resource at `/A/B`,
resolving `/A/B/C` returns the resource from `/A/B` together with the
arguments from `/A` (independently resolved nearest ancestors); resolving
a path with no registered ancestor falls back to the root defaults (the
default resource and empty arguments installed by the delayed setup). -/
theorem config_longest_prefix_resolution (defaultR r1 : Nat) (a1 : Args) :
    getConfiguration defaultR
        (setConfiguration defaultR (strOf [sepPart, s "A", s "B"]) (some r1) none none
          (setConfiguration defaultR (strOf [sepPart, s "A"]) none (some a1) none
            initialConfig))
        [sepPart, s "A", s "B", s "C"]
      = (some r1, some a1)
    ∧ getConfiguration defaultR
        (setConfiguration defaultR (strOf [sepPart, s "A", s "B"]) (some r1) none none
          (setConfiguration defaultR (strOf [sepPart, s "A"]) none (some a1) none
            initialConfig))
        [sepPart, s "X", s "Y"]
      = (some defaultR, some ([] : Args)) := by
  constructor <;> rfl

/-- C5 witness: the resolution scenario evaluated at concrete handles and
arguments. -/
theorem config_longest_prefix_resolution_witness :
    getConfiguration 0
        (setConfiguration 0 (strOf [sepPart, s "A", s "B"]) (some 1) none none
          (setConfiguration 0 (strOf [sepPart, s "A"]) none (some [(s "k", s "v")]) none
            initialConfig))
        [sepPart, s "A", s "B", s "C"]
      = (some 1, some [(s "k", s "v")]) :=
  (config_longest_prefix_resolution 0 1 [(s "k", s "v")]).1

theorem lookupAssoc_cons {V : Type} (x : List Char × V) (l : List (List Char × V))
    (k : List Char) :
    lookupAssoc (x :: l) k = if x.1 = k then some x.2 else lookupAssoc l k := by
  unfold lookupAssoc
  rw [List.find?_cons]
  by_cases h : x.1 = k
  · simp [h]
  · simp [h, lookupAssoc]

theorem lookupAssoc_updateAssoc {V : Type} (m : List (List Char × V)) (k : List Char) (v : V) :
    lookupAssoc (updateAssoc m k v) k = some v := by
  induction m with
  | nil =>
    show lookupAssoc ([] ++ [(k, v)]) k = some v
    rw [List.nil_append, lookupAssoc_cons]
    simp
  | cons kv rest ih =>
    unfold updateAssoc
    by_cases hany : ((kv :: rest).any (fun kv2 => decide (kv2.1 = k))) = true
    · rw [if_pos hany]
      by_cases hk : kv.1 = k
      · rw [List.map_cons, if_pos hk, lookupAssoc_cons]
        simp
      · rw [List.map_cons, if_neg hk, lookupAssoc_cons, if_neg hk]
        have hrest : (rest.any (fun kv2 => decide (kv2.1 = k))) = true := by
          rcases List.any_eq_true.mp hany with ⟨x, hx, hpx⟩
          rcases List.mem_cons.mp hx with rfl | hx2
          · exact absurd (of_decide_eq_true hpx) hk
          · exact List.any_eq_true.mpr ⟨x, hx2, hpx⟩
        have ih2 := ih
        unfold updateAssoc at ih2
        rw [if_pos hrest] at ih2
        exact ih2
    · rw [if_neg hany, List.cons_append, lookupAssoc_cons]
      by_cases hk : kv.1 = k
      · exact absurd (by simp [List.any_cons, hk] :
          ((kv :: rest).any (fun kv2 => decide (kv2.1 = k))) = true) hany
      · rw [if_neg hk]
        have hrest : ¬ (rest.any (fun kv2 => decide (kv2.1 = k))) = true := by
          intro hr
          exact hany (by simp [List.any_cons, hr])
        have ih2 := ih
        unfold updateAssoc at ih2
        rw [if_neg hrest] at ih2
        exact ih2

/-- C8 counterexample: registering with a relative `PureS3Path` and
parameters succeeds and stores the entry under the relative prefix string
`a/b` (no type error is raised for non-absolute paths — the `TypeError`
guards only non-`PureS3Path` arguments), and a call passing only the
deprecated `glob_new_algorithm` flag, with neither a handle nor
arguments, also succeeds instead of raising the invalid-argument
error. -/
theorem register_relative_and_glob_flag_counterexample :
    pyIsAbs [s "a", s "b"] = false
    ∧ registerConfigurationParameter (R := Nat) 0 true [s "a", s "b"]
        (some [(s "k", s "v")]) none none initialConfig
      = .ok { arguments := [(s "/", []), (s "a/b", [(s "k", s "v")])]
              resources := [(s "/", 0)]
              generalOptions := [(s "/", true)]
              isSetup := true }
    ∧ registerConfigurationParameter (R := Nat) 0 true [sepPart, s "A"]
        none none (some true) initialConfig
      = .ok { arguments := [(s "/", [])]
              resources := [(s "/", 0)]
              generalOptions := [(s "/", true), (s "/A", true)]
              isSetup := true } := by
  exact ⟨by decide, by decide, by decide⟩

/-- C8 amended: the registration fails with a type error when the path
argument is not a `PureS3Path` value at all (absoluteness is not checked;
a relative S3 path is accepted and stored under its string form), fails
with the invalid-argument error only when the resource, the parameters
and the deprecated `glob_new_algorithm` flag are all absent, and when it
succeeds it stores exactly the non-null fields at `str(path)`. -/
theorem register_validation (R : Type) (defaultR : R) (p : PyPath)
    (parameters : Option Args) (resource : Option R) (g : Option Bool)
    (st : ConfigState R) :
    registerConfigurationParameter defaultR false p parameters resource g st
      = .error .typeError
    ∧ registerConfigurationParameter defaultR true p none none none st
      = .error .valueError
    ∧ (∀ (a : Args) (r : R),
        registerConfigurationParameter defaultR true p (some a) (some r) g st
          = .ok (setConfiguration defaultR (strOf p) (some r) (some a) g st))
    ∧ (∀ (a : Args) (r : R),
        lookupAssoc (setConfiguration defaultR (strOf p) (some r) (some a) g st).arguments
            (strOf p) = some a
        ∧ lookupAssoc (setConfiguration defaultR (strOf p) (some r) (some a) g st).resources
            (strOf p) = some r)
    ∧ (∀ a : Args,
        (setConfiguration defaultR (strOf p) none (some a) g st).resources
          = (delayedSetup defaultR st).resources)
    ∧ (∀ r : R,
        (setConfiguration defaultR (strOf p) (some r) none g st).arguments
          = (delayedSetup defaultR st).arguments) := by
  refine ⟨rfl, rfl, fun a r => rfl, fun a r => ⟨?_, ?_⟩, fun a => ?_, fun r => ?_⟩
  · cases g <;> exact lookupAssoc_updateAssoc _ _ _
  · cases g <;> exact lookupAssoc_updateAssoc _ _ _
  · cases g <;> rfl
  · cases g <;> rfl

/-- C8 amended witness: the validation applied at a concrete relative
path, concrete arguments and an absent resource. -/
theorem register_validation_witness :
    registerConfigurationParameter (R := Nat) 0 false [s "a"] none none none initialConfig
      = .error .typeError
    ∧ lookupAssoc
        (setConfiguration (R := Nat) 0 (strOf [s "a"]) (some 3) (some [(s "k", s "v")]) none
          initialConfig).arguments (strOf [s "a"])
      = some [(s "k", s "v")] :=
  ⟨(register_validation Nat 0 [s "a"] none none none initialConfig).1,
   ((register_validation Nat 0 [s "a"] none none none initialConfig).2.2.2.1
      [(s "k", s "v")] 3).1⟩

/-- C9: on a versioned path, `/` with a plain string or plain-path segment
yields a plain (non-versioned) path, and `joinpath` with a nonempty
argument list yields a versioned result exactly when the last joined
argument is itself a versioned path (carrying that argument's version
identifier); otherwise the result is rebuilt as a plain path. -/
theorem versioned_arithmetic (p : PyPath) (vid : List Char) :
    (∀ (v : List Char) (r : SVal),
        truedivV p vid (SArg.strv v) = some r → r.isVersioned = false)
    ∧ (∀ (q : PyPath) (r : SVal),
        truedivV p vid (SArg.plainPath q) = some r → r.isVersioned = false)
    ∧ (∀ (args : List SArg) (lastA : SArg) (r : SVal),
        args.getLast? = some lastA →
        joinpathV p vid args = some r →
        (match lastA with
         | SArg.versionedPath _ qvid => ∃ rp, r = SVal.versioned rp qvid
         | _ => ∃ rp, r = SVal.plain rp)) := by
  refine ⟨?_, ?_, ?_⟩
  · intro v r h
    change (pyNormalize v).bind
      (fun kq => (elimDotDot (joinParts p kq)).map (fun rr => SVal.plain rr)) = some r at h
    cases hn : pyNormalize v with
    | none => rw [hn] at h; simp at h
    | some kq =>
      rw [hn] at h
      simp only [Option.some_bind] at h
      cases he : elimDotDot (joinParts p kq) with
      | none => rw [he] at h; simp at h
      | some rr =>
        rw [he] at h
        simp only [Option.map_some'] at h
        cases h
        rfl
  · intro q r h
    change (elimDotDot (joinParts p q)).map (fun rr => SVal.plain rr) = some r at h
    cases he : elimDotDot (joinParts p q) with
    | none => rw [he] at h; simp at h
    | some rr =>
      rw [he] at h
      simp only [Option.map_some'] at h
      cases h
      rfl
  · intro args lastA r hlast h
    unfold joinpathV at h
    rw [hlast] at h
    cases lastA with
    | strv v =>
      change (elimDotDot (args.foldl (fun acc a => joinParts acc (rawPartsOfArg a)) p)).bind
        (fun r1 => (elimDotDot r1).map (fun r2 => SVal.plain r2)) = some r at h
      cases he : elimDotDot (args.foldl (fun acc a => joinParts acc (rawPartsOfArg a)) p) with
      | none => rw [he] at h; simp at h
      | some r1 =>
        rw [he] at h
        simp only [Option.some_bind] at h
        cases he2 : elimDotDot r1 with
        | none => rw [he2] at h; simp at h
        | some r2 =>
          rw [he2] at h
          simp only [Option.map_some'] at h
          cases h
          exact ⟨r2, rfl⟩
    | plainPath q =>
      change (elimDotDot (args.foldl (fun acc a => joinParts acc (rawPartsOfArg a)) p)).bind
        (fun r1 => (elimDotDot r1).map (fun r2 => SVal.plain r2)) = some r at h
      cases he : elimDotDot (args.foldl (fun acc a => joinParts acc (rawPartsOfArg a)) p) with
      | none => rw [he] at h; simp at h
      | some r1 =>
        rw [he] at h
        simp only [Option.some_bind] at h
        cases he2 : elimDotDot r1 with
        | none => rw [he2] at h; simp at h
        | some r2 =>
          rw [he2] at h
          simp only [Option.map_some'] at h
          cases h
          exact ⟨r2, rfl⟩
    | versionedPath q qvid =>
      change (elimDotDot (args.foldl (fun acc a => joinParts acc (rawPartsOfArg a)) p)).map
        (fun r1 => SVal.versioned r1 qvid) = some r at h
      cases he : elimDotDot (args.foldl (fun acc a => joinParts acc (rawPartsOfArg a)) p) with
      | none => rw [he] at h; simp at h
      | some r1 =>
        rw [he] at h
        simp only [Option.map_some'] at h
        cases h
        exact ⟨r1, rfl⟩

/-- C9 witness: the version-dropping and version-propagating operations at
concrete inputs. -/
theorem versioned_arithmetic_witness :
    SVal.isVersioned (SVal.plain [sepPart, s "b", s "k", s "x"]) = false
    ∧ (∃ rp, SVal.versioned [sepPart, s "b", s "x", s "y"] (s "v2")
        = SVal.versioned rp (s "v2")) :=
  ⟨(versioned_arithmetic [sepPart, s "b", s "k"] (s "v1")).1 (s "x")
      (SVal.plain [sepPart, s "b", s "k", s "x"]) (by decide),
   (versioned_arithmetic [sepPart, s "b"] (s "v1")).2.2
      [SArg.strv (s "x"), SArg.versionedPath [s "y"] (s "v2")]
      (SArg.versionedPath [s "y"] (s "v2"))
      (SVal.versioned [sepPart, s "b", s "x", s "y"] (s "v2"))
      (by decide) (by decide)⟩

/-- C3: for any two keys `x/y/z/<f1>` and `x/y/z/<f2>` sharing the
ancestor levels `x`, `x/y`, globbing `*/*` over the bucket yields the
matching level `/bucket/x/y` exactly once — the level is inferred from the
deeper keys (it holds no direct object) and the second key's levels are
all deduplicated by the scan cache. -/
theorem glob_dedup_intermediate_level (f1 f2 : List Char)
    (h1 : sepC ∉ f1) (h2 : sepC ∉ f2) :
    globS3 (s "bucket") [] [s "x/y/z/" ++ f1, s "x/y/z/" ++ f2] (s "*/*")
      = .ok [some [s "/", s "bucket", s "x", s "y"]] := by
  have hfix : ∀ f : List Char, sepC ∉ f →
      targetParts [] (some 2) (s "x/y/z/" ++ f) = [s "x", s "y"] := by
    intro f hf
    have hsplit : splitOnSep (s "x/y/z/" ++ f) = [s "x", s "y", s "z", f] := by
      have e1 : s "x/y/z/" ++ f
          = (s "x") ++ sepC :: ((s "y") ++ sepC :: ((s "z") ++ sepC :: f)) := rfl
      rw [e1, splitOnSep_append _ _ (by decide), splitOnSep_append _ _ (by decide),
        splitOnSep_append _ _ (by decide), splitOnSep_no_sep f hf]
    have hcount : countSep (s "x/y/z/" ++ f) = 3 := by
      have hc0 : List.count sepC f = 0 := List.count_eq_zero.mpr hf
      have hca : countSep (s "x/y/z/" ++ f) = countSep (s "x/y/z/") + List.count sepC f :=
        List.count_append _ _ _
      have hcc : countSep (s "x/y/z/") = 3 := by decide
      rw [hca, hc0, hcc]
    unfold targetParts pyRsplitSep
    rw [hcount, hsplit]
    have hc2 : countSep ([] : List Char) = 0 := rfl
    rw [hc2]
    norm_num
    rfl
  have hkeys : iterKeys [s "x/y/z/" ++ f1, s "x/y/z/" ++ f2] [] true
      = [s "x/y/z/" ++ f1, s "x/y/z/" ++ f2] := by
    unfold iterKeys listObjectsV2
    simp [hasPfx, List.isPrefixOf, List.filter]
  have hscan : deepScan [] (some 2) [s "x/y/z/" ++ f1, s "x/y/z/" ++ f2]
      = [s "/x", s "/x/y"] := by
    unfold deepScan
    simp only [List.foldl_cons, List.foldl_nil]
    rw [hfix f1 h1, hfix f2 h2]
    decide
  have hglob : globS3 (s "bucket") [] [s "x/y/z/" ++ f1, s "x/y/z/" ++ f2] (s "*/*")
      = .ok (selectorSelect (s "bucket") [] [s "x/y/z/" ++ f1, s "x/y/z/" ++ f2]
          (s "*/*")) := rfl
  have hfinal : selectorSelect (s "bucket") [] [s "x/y/z/" ++ f1, s "x/y/z/" ++ f2]
      (s "*/*")
      = (deepScan [] (some 2)
          (iterKeys [s "x/y/z/" ++ f1, s "x/y/z/" ++ f2] [] true)).filterMap
          (fun t =>
            if rmatch (compilePatternParts [] (s "*/*") (s "bucket"))
                (sepC :: (s "bucket" ++ t)) then
              some (pyNormalize (sepC :: (s "bucket" ++ t)))
            else none) := rfl
  rw [hglob, hfinal, hkeys, hscan]
  decide

/-- C3 witness: the dedup scenario evaluated at the spec's own file
names. -/
theorem glob_dedup_intermediate_level_witness :
    globS3 (s "bucket") [] [s "x/y/z/file1.txt", s "x/y/z/file2.txt"] (s "*/*")
      = .ok [some [s "/", s "bucket", s "x", s "y"]] :=
  glob_dedup_intermediate_level (s "file1.txt") (s "file2.txt") (by decide) (by decide)

end S3PathSpec
